import Mathlib

/-!
Shallow embedding of the path state machine of the flowstate puzzle game:
the commit engine (src/unnamed/part_000, `commitDragWorklet` and its removal
helpers) and the drag-session algorithm (src/game/gestureController.ts,
`startDragSession` / `updateDragSession` / `buildPickupPath`).

Modelling conventions:
* JS objects `Record<string, T>` are association lists in key insertion
  order (JS `for..in` visits non-numeric string keys in insertion order,
  and a record has no duplicate keys).
* A cell key `(x,y) -> "x,y"` is injective on integer cells, so the
  per-cell maps (`dotColorByKey`, `areaByKey`, `openSetByKey`) are modelled
  directly as functions on `Cell`.
* JS truthiness of an optional string (`if (dotColorByKey[key])`) is
  `optStrTruthy`: both `undefined` and the empty string are falsy.
* Pixel coordinates are rationals; grid coordinates are integers.
* In-place `splice`/`push`/`pop` loops become the equivalent
  value-returning list operations (reverse-index splice loops that delete
  every matching element preserve the order of the survivors).
-/

namespace FlowState

/-- Integer grid coordinate (src/game/dragTypes.ts, `Cell`). -/
structure Cell where
  x : Int
  y : Int
deriving DecidableEq

/-- Committed path segment (src/game/dragTypes.ts, `Segment`). -/
structure Segment where
  id : String
  cells : List Cell
deriving DecidableEq

/-- `PathsByColor = Record<string, Segment[]>` in insertion order. -/
abbrev PathsByColor := List (String × List Segment)

/-- Movement axis of a drag (`'x' | 'y'`). -/
inductive Axis where
  | x
  | y
deriving DecidableEq

/-- Transient drag session (src/game/dragTypes.ts, `DragPreviewSession`). -/
structure DragPreviewSession where
  color : String
  path : List Cell
  axis : Option Axis
  locked : Bool
  hasMoved : Bool
deriving DecidableEq

/-- Open-cell bounding box (src/game/dragTypes.ts, `OpenBounds`). -/
structure OpenBounds where
  minX : Int
  minY : Int
  maxX : Int
  maxY : Int
deriving DecidableEq

/-- JS truthiness of a `string | undefined` value: `undefined` and the empty
string are falsy, every other string is truthy. -/
def optStrTruthy : Option String → Bool
  | none => false
  | some s => !s.isEmpty

/-! ## Path Store operations (src/unnamed/part_000) -/

/-- `clonePaths` (part_000 lines 16-35): deep copy; color keys whose
segment list is missing or empty are skipped, i.e. dropped from the copy.
Under value semantics the copy itself is the identity on the kept entries. -/
def clonePaths (source : PathsByColor) : PathsByColor :=
  source.filter fun e => !e.2.isEmpty

/-- Shared shape of the removal helpers of part_000 (lines 47-140) and of
gestureController.ts (lines 246-304): every color's list is scanned from the
last index down to 0 and each segment satisfying `hit` is spliced out; a
color key is deleted exactly when its own scan emptied the list, while an
entry that was already empty is skipped and kept.  Functionally this keeps,
in order, the segments that do not satisfy `hit`. -/
def removeEntry (hit : Segment → Bool) (e : String × List Segment) :
    Option (String × List Segment) :=
  if (e.2.filter fun s => !hit s).isEmpty && !e.2.isEmpty then none
  else some (e.1, e.2.filter fun s => !hit s)

/-- Apply `removeEntry` to every color of the store. -/
def removeWhere (hit : Segment → Bool) (source : PathsByColor) : PathsByColor :=
  source.filterMap (removeEntry hit)

/-- The `removed` flag computed by the removal helpers: true exactly when
some segment of some color satisfies `hit`. -/
def removedAny (hit : Segment → Bool) (source : PathsByColor) : Bool :=
  source.any fun e => e.2.any hit

/-- Inner test of `removeSegmentsIntersecting` (part_000 lines 53-63): does
the segment contain any cell of the key set? -/
def segmentHitsCells (keys : List Cell) (s : Segment) : Bool :=
  s.cells.any fun c => decide (c ∈ keys)

/-- Endpoint test against a key set (part_000 lines 79-90): the first or
last cell of the segment is in the set.  A segment with no cells is skipped
by the source (`if (!segment.cells.length) continue`). -/
def segmentEndpointInKeys (keys : List Cell) (s : Segment) : Bool :=
  match s.cells.head?, s.cells.getLast? with
  | some first, some last => decide (first ∈ keys) || decide (last ∈ keys)
  | _, _ => false

/-- Endpoint test against a single key (part_000 lines 101-111 and
gestureController.ts lines 257-267). -/
def segmentAtEndpointKey (key : Cell) (s : Segment) : Bool :=
  match s.cells.head?, s.cells.getLast? with
  | some first, some last => decide (first = key) || decide (last = key)
  | _, _ => false

/-- Area test (part_000 lines 127-137): the first or last cell of the
segment lies in the given area (`areaByKey[...] === areaId`; an absent area
id never equals a number). -/
def segmentTerminatesInArea (areaByKey : Cell → Option Int) (areaId : Int)
    (s : Segment) : Bool :=
  match s.cells.head?, s.cells.getLast? with
  | some first, some last =>
      decide (areaByKey first = some areaId) || decide (areaByKey last = some areaId)
  | _, _ => false

/-- `removeSegmentsIntersecting` (part_000 lines 47-71): mutates the store
and returns the `removed` flag; modelled as the pair of the new store and
the flag. -/
def removeSegmentsIntersecting (source : PathsByColor) (keys : List Cell) :
    PathsByColor × Bool :=
  (removeWhere (segmentHitsCells keys) source,
   removedAny (segmentHitsCells keys) source)

/-- `removeSegmentsWithEndpoints` (part_000 lines 73-93). -/
def removeSegmentsWithEndpoints (source : PathsByColor) (keys : List Cell) :
    PathsByColor × Bool :=
  (removeWhere (segmentEndpointInKeys keys) source,
   removedAny (segmentEndpointInKeys keys) source)

/-- `removeSegmentsAtEndpoint` (part_000 lines 95-115). -/
def removeSegmentsAtEndpoint (source : PathsByColor) (endpointKey : Cell) :
    PathsByColor × Bool :=
  (removeWhere (segmentAtEndpointKey endpointKey) source,
   removedAny (segmentAtEndpointKey endpointKey) source)

/-- Per-entry action of the area removal: entries of other colors are kept
unchanged; the entry of `color` is filtered like `removeEntry`. -/
def removeAreaEntry (color : String) (areaId : Int) (areaByKey : Cell → Option Int)
    (e : String × List Segment) : Option (String × List Segment) :=
  if e.1 = color then removeEntry (segmentTerminatesInArea areaByKey areaId) e
  else some e

/-- `removeSegmentsWithColorInArea` (part_000 lines 117-140): only the
entry of `color` is touched (`source[color]`); absent or empty entries make
the helper return `false` without changes. -/
def removeSegmentsWithColorInArea (source : PathsByColor) (color : String)
    (areaId : Int) (areaByKey : Cell → Option Int) : PathsByColor × Bool :=
  (source.filterMap (removeAreaEntry color areaId areaByKey),
   source.any fun e =>
     e.1 = color && e.2.any (segmentTerminatesInArea areaByKey areaId))

/-- `record[key] ?? []`: the list of segments stored under a color key. -/
def getEntry (source : PathsByColor) (key : String) : List Segment :=
  match source with
  | [] => []
  | e :: rest => if e.1 = key then e.2 else getEntry rest key

/-- `record[key] = value`: replace the value in place when the key exists,
otherwise append the new key at the end of the insertion order. -/
def setEntry (source : PathsByColor) (key : String) (value : List Segment) :
    PathsByColor :=
  match source with
  | [] => [(key, value)]
  | e :: rest => if e.1 = key then (key, value) :: rest else e :: setEntry rest key value

/-- The synthesized segment identity `segment-(idSeed)-(nextSegmentId)`
(part_000 line 203; the template literal stringifies both numbers, written
with `Nat.repr`, which is what `toString` unfolds to for `Nat`). -/
def mkSegmentId (idSeed nextSegmentId : Nat) : String :=
  "segment-" ++ Nat.repr idSeed ++ "-" ++ Nat.repr nextSegmentId

/-- Result record of `commitDragWorklet`. -/
structure CommitResult where
  paths : PathsByColor
  didChange : Bool
  nextSegmentId : Nat
deriving DecidableEq

/-- `commitDragWorklet` (part_000 lines 142-214), translated branch by
branch.  In the path case the source computes a `changed` flag from the
removal helpers but unconditionally returns `didChange: true`. -/
def commitDragWorklet (paths : PathsByColor) (session : DragPreviewSession)
    (dotColorByKey : Cell → Option String) (areaByKey : Cell → Option Int)
    (idSeed : Nat) (nextSegmentId : Nat) : CommitResult :=
  match session.path with
  | [] => ⟨paths, false, nextSegmentId⟩
  | start :: restPath =>
    let path := start :: restPath
    let next := clonePaths paths
    let pathKeys := path
    let endCell := path.getLast (List.cons_ne_nil _ _)
    let endpointKeys : List Cell :=
      (if optStrTruthy (dotColorByKey start) then [start] else []) ++
        (if optStrTruthy (dotColorByKey endCell) then [endCell] else [])
    let hasEndpointKeys := !endpointKeys.isEmpty
    let isTap := path.length == 1 && !session.hasMoved
    if isTap then
      if optStrTruthy (dotColorByKey start) then
        let r := removeSegmentsAtEndpoint next start
        ⟨if r.2 then r.1 else paths, r.2, nextSegmentId⟩
      else ⟨paths, false, nextSegmentId⟩
    else if path.length == 1 then ⟨paths, false, nextSegmentId⟩
    else
      let startArea :=
        if dotColorByKey start = some session.color then areaByKey start else none
      let next1 :=
        match startArea with
        | some a => (removeSegmentsWithColorInArea next session.color a areaByKey).1
        | none => next
      let endArea :=
        if dotColorByKey endCell = some session.color then areaByKey endCell else none
      let next2 :=
        match endArea with
        | some a =>
            if startArea ≠ some a then
              (removeSegmentsWithColorInArea next1 session.color a areaByKey).1
            else next1
        | none => next1
      let next3 :=
        if hasEndpointKeys then (removeSegmentsWithEndpoints next2 endpointKeys).1
        else next2
      let next4 := (removeSegmentsIntersecting next3 pathKeys).1
      let segmentId := mkSegmentId idSeed nextSegmentId
      let cells := path.map fun c => Cell.mk c.x c.y
      let seg : Segment := ⟨segmentId, cells⟩
      let existing := getEntry next4 session.color
      ⟨setEntry next4 session.color (existing ++ [seg]), true, nextSegmentId + 1⟩

/-! ## Drag session (src/game/gestureController.ts) -/

/-- Result of `findSegmentAt` (gestureController.ts lines 209-223). -/
structure SegmentHit where
  color : String
  segment : Segment
  index : Nat
deriving DecidableEq

/-- Scan of one color's segment list: the first segment covering `(x,y)`
together with the index of the matching cell. -/
def findSegmentAtSegs (color : String) (segs : List Segment) (x y : Int) :
    Option SegmentHit :=
  match segs with
  | [] => none
  | s :: rest =>
    match s.cells.findIdx? (fun c => c.x == x && c.y == y) with
    | some i => some ⟨color, s, i⟩
    | none => findSegmentAtSegs color rest x y

/-- `findSegmentAt` (gestureController.ts lines 209-223): scan all colors in
insertion order, all segments in order, all cells in order. -/
def findSegmentAt (paths : PathsByColor) (x y : Int) : Option SegmentHit :=
  match paths with
  | [] => none
  | (color, segs) :: rest =>
    match findSegmentAtSegs color segs x y with
    | some h => some h
    | none => findSegmentAt rest x y

/-- `removeSegmentsWithEndpoint` (gestureController.ts lines 246-274): the
variant with a `clone` flag; it scans every color. -/
def removeSegmentsWithEndpoint (paths : PathsByColor) (endpointKey : Cell)
    (clone : Bool) : PathsByColor × Bool :=
  let next := if clone then clonePaths paths else paths
  (removeWhere (segmentAtEndpointKey endpointKey) next,
   removedAny (segmentAtEndpointKey endpointKey) next)

/-- `removeSegmentsWithColorInArea` of gestureController.ts (lines 276-304):
the variant with a `clone` flag; only the entry of `color` is touched. -/
def removeSegmentsWithColorInAreaClone (paths : PathsByColor) (color : String)
    (areaId : Int) (areaByKey : Cell → Option Int) (clone : Bool) :
    PathsByColor × Bool :=
  let next := if clone then clonePaths paths else paths
  (next.filterMap (removeAreaEntry color areaId areaByKey),
   next.any fun e =>
     e.1 = color && e.2.any (segmentTerminatesInArea areaByKey areaId))

/-- `buildPickupPath` (gestureController.ts lines 328-354).  The source
reads `cells[0]` and `cells[cells.length-1]`; callers only pass segments
that cover the picked cell, so the list is never empty, and the empty case
is mapped to `[]`. -/
def buildPickupPath (segment : Segment) (index : Nat) (color : String)
    (dotColors : Cell → Option String) : List Cell :=
  let cells := segment.cells
  let leftLen := index + 1
  let rightLen := cells.length - index
  match cells.head?, cells.getLast? with
  | some leftEnd, some rightEnd =>
    let leftDot := dotColors leftEnd == some color
    let rightDot := dotColors rightEnd == some color
    let useLeft :=
      if leftDot && !rightDot then true
      else if rightDot && !leftDot then false
      else leftLen ≥ rightLen
    let slice := if useLeft then cells.take (index + 1) else (cells.drop index).reverse
    slice.map fun c => Cell.mk c.x c.y
  | _, _ => []

/-- Result of `startDragSession`: the session (or `null`), the value of the
shared Path Store after the call, and whether the store was mutated. -/
structure StartDragResult where
  session : Option DragPreviewSession
  paths : PathsByColor
  mutated : Bool
deriving DecidableEq

/-- The start-of-drag eviction (gestureController.ts lines 449-477), run
when the start cell is a (truthy) dot of color `dc`: endpoint removal over
every color on a clone, then, when the cell has an area id, same-color area
removal (cloning only if the first step found nothing); the store keeps its
original value when a step removed nothing. -/
def startEvict (paths0 : PathsByColor) (startCell : Cell) (dc : String)
    (areaByKey : Cell → Option Int) : PathsByColor × Bool :=
  let er := removeSegmentsWithEndpoint paths0 startCell true
  let p1 := if er.2 then er.1 else paths0
  let r1 := er.2
  match areaByKey startCell with
  | some areaId =>
    let ar := removeSegmentsWithColorInAreaClone p1 dc areaId areaByKey (!r1)
    if ar.2 then (ar.1, true) else (p1, r1)
  | none => (p1, r1)

/-- `startDragSession` (gestureController.ts lines 441-492). -/
def startDragSession (startCell : Cell) (openSet : Cell → Bool)
    (dotColors : Cell → Option String) (areaByKey : Cell → Option Int)
    (paths0 : PathsByColor) : StartDragResult :=
  if !openSet startCell then ⟨none, paths0, false⟩
  else
    let dotColor := dotColors startCell
    let ev :=
      if optStrTruthy dotColor then startEvict paths0 startCell (dotColor.getD "") areaByKey
      else (paths0, false)
    let paths := ev.1
    let segmentHit : Option SegmentHit := findSegmentAt paths startCell.x startCell.y
    let color? : Option String :=
      match dotColor with
      | some dc => some dc
      | none => segmentHit.map fun h => h.color
    match color? with
    | none => ⟨none, paths, ev.2⟩
    | some color =>
      if color.isEmpty then ⟨none, paths, ev.2⟩
      else
        let path :=
          match segmentHit with
          | some hit =>
            if hit.color = color then buildPickupPath hit.segment hit.index color dotColors
            else [Cell.mk startCell.x startCell.y]
          | none => [Cell.mk startCell.x startCell.y]
        ⟨some ⟨color, path, none, false, false⟩, paths, ev.2⟩

/-! ## Drag-session update (gestureController.ts lines 356-602) -/

/-- `Math.min(max, Math.max(min, value))` on rationals. -/
def clampQ (value lo hi : ℚ) : ℚ := min hi (max lo value)

/-- The same clamp on integer cell coordinates. -/
def clampI (value lo hi : Int) : Int := min hi (max lo value)

/-- Center of a cell in local pixel coordinates (gestureController.ts
lines 193-196). -/
def cellCenter (cell : Cell) (cellSize : ℚ) : ℚ × ℚ :=
  ((cell.x : ℚ) * cellSize + cellSize / 2, (cell.y : ℚ) * cellSize + cellSize / 2)

/-- Coordinate of a cell along an axis. -/
def axisCoord (a : Axis) (c : Cell) : Int :=
  match a with
  | .x => c.x
  | .y => c.y

/-- One cell step from `current` along `a` in direction `stepDir`
(gestureController.ts lines 540-543). -/
def stepCell (a : Axis) (stepDir : Int) (current : Cell) : Cell :=
  match a with
  | .x => ⟨current.x + stepDir, current.y⟩
  | .y => ⟨current.x, current.y + stepDir⟩

/-- `resolveAxis` (gestureController.ts lines 356-384). -/
def resolveAxis (axis : Option Axis) (deltaX deltaY : ℚ) (last pointerCell : Cell)
    (pointerInOpen : Bool) : Option Axis :=
  let absX := |deltaX|
  let absY := |deltaY|
  let candidateCell := if pointerInOpen then pointerCell else last
  match axis with
  | none =>
    if candidateCell.x = last.x ∧ candidateCell.y = last.y then none
    else if candidateCell.x ≠ last.x ∧ candidateCell.y ≠ last.y then
      if absX ≥ absY then some .x else some .y
    else if candidateCell.x ≠ last.x then some .x else some .y
  | some .x =>
    if candidateCell.y ≠ last.y then
      if candidateCell.x = last.x ∨ absY ≥ absX then some .y else some .x
    else some .x
  | some .y =>
    if candidateCell.x ≠ last.x then
      if candidateCell.y = last.y ∨ absX ≥ absY then some .x else some .y
    else some .y

/-- Scan of `computeTip` (gestureController.ts lines 420-432): walk cells
along the axis and report the clamp limit set by the first closed cell or
the first dot, if the scan hits one. -/
def tipLimitScan (ax : Axis) (direction : Int) (last : Cell)
    (axisAnchor size : ℚ) (openSet : Cell → Bool)
    (dotColors : Cell → Option String) : Nat → Nat → Option ℚ
  | 0, _ => none
  | fuel + 1, step =>
    let nextX := last.x + (if ax = .x then direction * (step : Int) else 0)
    let nextY := last.y + (if ax = .y then direction * (step : Int) else 0)
    let key := Cell.mk nextX nextY
    if !openSet key then some (axisAnchor + (direction : ℚ) * ((step : ℚ) - 1 / 2) * size)
    else if optStrTruthy (dotColors key) then
      some (axisAnchor + (direction : ℚ) * (step : ℚ) * size)
    else tipLimitScan ax direction last axisAnchor size openSet dotColors fuel (step + 1)

/-- `computeTip` (gestureController.ts lines 386-439). -/
def computeTip (fitCellSize : ℚ) (openBounds : OpenBounds) (openSet : Cell → Bool)
    (dotColors : Cell → Option String) (axis : Option Axis) (localX localY : ℚ)
    (last : Cell) : ℚ × ℚ :=
  let size := if fitCellSize > 0 then fitCellSize else 1
  match axis with
  | none => cellCenter last size
  | some ax =>
    let minX := (openBounds.minX : ℚ) * size
    let maxX := ((openBounds.maxX : ℚ) + 1) * size
    let minY := (openBounds.minY : ℚ) * size
    let maxY := ((openBounds.maxY : ℚ) + 1) * size
    let clampedX := clampQ localX minX maxX
    let clampedY := clampQ localY minY maxY
    let anchor := cellCenter last size
    let axisTarget := match ax with | .x => clampedX | .y => clampedY
    let axisAnchor := match ax with | .x => anchor.1 | .y => anchor.2
    let direction : Int :=
      if axisTarget > axisAnchor then 1 else if axisTarget < axisAnchor then -1 else 0
    if direction = 0 then anchor
    else
      let maxSteps : Int :=
        match ax with
        | .x =>
          if direction > 0 then openBounds.maxX - last.x + 1
          else last.x - openBounds.minX + 1
        | .y =>
          if direction > 0 then openBounds.maxY - last.y + 1
          else last.y - openBounds.minY + 1
      let scanned :=
        tipLimitScan ax direction last axisAnchor size openSet dotColors maxSteps.toNat 1
      let limit0 := match scanned with | some l => l | none => axisAnchor
      let limitCoord :=
        if limit0 = axisAnchor then
          axisAnchor + (direction : ℚ) * ((maxSteps : ℚ) - 1 / 2) * size
        else limit0
      let clampedAxis :=
        if direction > 0 then min axisTarget limitCoord else max axisTarget limitCoord
      match ax with
      | .x => (clampedAxis, anchor.2)
      | .y => (anchor.1, clampedAxis)

/-- Mutable state of the stepping loop of `updateDragSession`
(gestureController.ts lines 530-577): the live path plus the `locked`,
`hasMoved` and `pathChanged` flags. -/
structure StepState where
  path : List Cell
  locked : Bool
  hasMoved : Bool
  pathChanged : Bool
deriving DecidableEq

/-- The stepping loop of `updateDragSession` (gestureController.ts lines
532-577), with the `while (guard < 256)` bound as explicit fuel.  Each
iteration: backtrack (pop and clear the lock and continue), stop on the
lock, stop on a closed cell, truncate at an earlier occurrence of the
candidate, stop on a foreign dot, otherwise append (locking on a same-color
dot). -/
def stepLoop (a : Axis) (targetCoord : Int) (color : String)
    (openSet : Cell → Bool) (dotColors : Cell → Option String) :
    Nat → StepState → StepState
  | 0, st => st
  | fuel + 1, st =>
    match st.path.getLast? with
    | none => st
    | some current =>
      let currentCoord := axisCoord a current
      if targetCoord - currentCoord = 0 then st
      else
        let stepDir : Int := if targetCoord - currentCoord > 0 then 1 else -1
        let next := stepCell a stepDir current
        let prev? := if 2 ≤ st.path.length then st.path.get? (st.path.length - 2) else none
        let isBacktrack := match prev? with
          | some prev => decide (prev = next)
          | none => false
        if isBacktrack then
          stepLoop a targetCoord color openSet dotColors fuel
            ⟨st.path.dropLast, false, st.hasMoved, true⟩
        else if st.locked then st
        else if !openSet next then st
        else
          match st.path.findIdx? (fun c => c.x == next.x && c.y == next.y) with
          | some existingIndex =>
            ⟨st.path.take (existingIndex + 1), false, st.hasMoved, true⟩
          | none =>
            let dotColor := dotColors next
            if optStrTruthy dotColor && dotColor ≠ some color then st
            else
              let st' : StepState :=
                ⟨st.path ++ [Cell.mk next.x next.y], st.locked, true, true⟩
              if optStrTruthy dotColor && dotColor = some color then
                ⟨st'.path, true, st'.hasMoved, st'.pathChanged⟩
              else stepLoop a targetCoord color openSet dotColors fuel st'

/-- Result record of `updateDragSession`. -/
structure UpdateResult where
  session : DragPreviewSession
  tip : ℚ × ℚ
  pathChanged : Bool
deriving DecidableEq

/-- `updateDragSession` (gestureController.ts lines 494-602). -/
def updateDragSession (session : DragPreviewSession) (localX localY : ℚ)
    (fitCellSize : ℚ) (openBounds : OpenBounds) (openSet : Cell → Bool)
    (dotColors : Cell → Option String) : UpdateResult :=
  match session.path with
  | [] => ⟨session, (localX, localY), false⟩
  | first :: restPath =>
    let size := if fitCellSize > 0 then fitCellSize else 1
    let path := first :: restPath
    let last := path.getLast (List.cons_ne_nil _ _)
    let anchor := cellCenter last size
    let minX := (openBounds.minX : ℚ) * size
    let maxX := ((openBounds.maxX : ℚ) + 1) * size
    let minY := (openBounds.minY : ℚ) * size
    let maxY := ((openBounds.maxY : ℚ) + 1) * size
    let clampedX := clampQ localX minX maxX
    let clampedY := clampQ localY minY maxY
    let pointerCell : Cell :=
      ⟨clampI ⌊clampedX / size⌋ openBounds.minX openBounds.maxX,
       clampI ⌊clampedY / size⌋ openBounds.minY openBounds.maxY⟩
    let pointerInOpen := openSet pointerCell
    let deltaX := clampedX - anchor.1
    let deltaY := clampedY - anchor.2
    let axis := resolveAxis session.axis deltaX deltaY last pointerCell pointerInOpen
    let st0 : StepState := ⟨path, session.locked, session.hasMoved, false⟩
    let st :=
      match axis with
      | some a => stepLoop a (axisCoord a pointerCell) session.color openSet dotColors 256 st0
      | none => st0
    let lastCell := st.path.getLastD last
    let lastDot := dotColors (Cell.mk lastCell.x lastCell.y)
    let locked :=
      if !optStrTruthy lastDot || lastDot ≠ some session.color || st.path.length = 1 then
        false
      else st.locked
    let axis2 := if st.path.length ≤ 1 then none else axis
    let tipAxis := axis2.getD (if |deltaX| ≥ |deltaY| then .x else .y)
    let tip :=
      if locked then cellCenter lastCell size
      else computeTip fitCellSize openBounds openSet dotColors (some tipAxis) localX localY lastCell
    ⟨⟨session.color, st.path, axis2, locked, st.hasMoved⟩, tip, st.pathChanged⟩

/-! ## Injectivity of the decimal numeral, for segment-id uniqueness -/

/-- Decimal value of a digit character. -/
def digitVal (c : Char) : Nat := c.toNat - '0'.toNat

/-- Value of a decimal digit string, most significant digit first. -/
def ofDigitChars (l : List Char) : Nat :=
  l.foldl (fun acc c => acc * 10 + digitVal c) 0

/-! ## The no-self-overlap invariant -/

/-- Two segments share no cell. -/
def cellsDisjoint (s t : Segment) : Prop := ∀ c ∈ s.cells, c ∉ t.cells

instance (s t : Segment) : Decidable (cellsDisjoint s t) := by
  unfold cellsDisjoint; infer_instance

/-- Within every color of the store, no cell appears in two segments. -/
def NoSelfOverlap (p : PathsByColor) : Prop :=
  ∀ e ∈ p, e.2.Pairwise cellsDisjoint

instance (p : PathsByColor) : Decidable (NoSelfOverlap p) := by
  unfold NoSelfOverlap; infer_instance

/-- Removal (1) of the path case: start-dot same-color area eviction. -/
def commitStep1 (p : PathsByColor) (color : String) (start : Cell)
    (dot : Cell → Option String) (area : Cell → Option Int) : PathsByColor :=
  match (if dot start = some color then area start else none) with
  | some a => (removeSegmentsWithColorInArea p color a area).1
  | none => p

/-- Removal (2) of the path case: end-dot same-color area eviction, skipped
when the end's area equals the start's. -/
def commitStep2 (p : PathsByColor) (color : String) (start endCell : Cell)
    (dot : Cell → Option String) (area : Cell → Option Int) : PathsByColor :=
  match (if dot endCell = some color then area endCell else none) with
  | some a =>
      if (if dot start = some color then area start else none) ≠ some a then
        (removeSegmentsWithColorInArea p color a area).1
      else p
  | none => p

/-- The dot endpoints of the path: the start or end cell when it is a dot. -/
def dotEndpointKeys (start endCell : Cell) (dot : Cell → Option String) : List Cell :=
  (if optStrTruthy (dot start) then [start] else []) ++
    (if optStrTruthy (dot endCell) then [endCell] else [])

/-- Removal (3) of the path case: any-color endpoint eviction at the dot
endpoints, guarded by `hasEndpointKeys` in the source. -/
def commitStep3 (p : PathsByColor) (start endCell : Cell)
    (dot : Cell → Option String) : PathsByColor :=
  if !(dotEndpointKeys start endCell dot).isEmpty then
    (removeSegmentsWithEndpoints p (dotEndpointKeys start endCell dot)).1
  else p

/-- The four removal steps of the path case, in the source's order, starting
from the clone. -/
def commitRemovalChain (paths : PathsByColor) (color : String) (path : List Cell)
    (start endCell : Cell) (dot : Cell → Option String) (area : Cell → Option Int) :
    PathsByColor :=
  (removeSegmentsIntersecting
      (commitStep3
        (commitStep2 (commitStep1 (clonePaths paths) color start dot area)
          color start endCell dot area)
        start endCell dot)
      path).1

/-- Modelled from the specification's description of the path case: clone
the store; (1) when the start cell is a dot of the session's color and has
an area id, remove same-color segments terminating in that area; (2) when
the end cell is a dot of the session's color with an area id different from
the start's, remove same-color segments terminating in that area; (3) remove
every segment, regardless of color, whose first or last cell coincides with
a dot endpoint of the path; (4) remove every segment containing any cell of
the path; then append the segment built from the full ordered path with
identity `mkSegmentId idSeed n` and return the incremented counter. -/
def commitPathSpec (paths : PathsByColor) (color : String) (path : List Cell)
    (start endCell : Cell) (dot : Cell → Option String) (area : Cell → Option Int)
    (idSeed n : Nat) : CommitResult :=
  let p0 := clonePaths paths
  let startDotArea : Option Int := if dot start = some color then area start else none
  let p1 :=
    match startDotArea with
    | some a => (removeSegmentsWithColorInArea p0 color a area).1
    | none => p0
  let endDotArea : Option Int := if dot endCell = some color then area endCell else none
  let p2 :=
    match endDotArea with
    | some a =>
        if startDotArea ≠ some a then (removeSegmentsWithColorInArea p1 color a area).1
        else p1
    | none => p1
  let p3 := removeWhere (segmentEndpointInKeys (dotEndpointKeys start endCell dot)) p2
  let p4 := removeWhere (segmentHitsCells path) p3
  ⟨setEntry p4 color (getEntry p4 color ++ [⟨mkSegmentId idSeed n, path⟩]), true, n + 1⟩

/-- Modelled from the amended claim: the start-of-drag eviction removes
every segment, of any color, whose first or last cell is the start cell,
and then, when the start cell has an area id, every segment of the dot's
color terminating in that area. -/
def startEvictSpec (paths0 : PathsByColor) (startCell : Cell) (dc : String)
    (area : Cell → Option Int) : PathsByColor :=
  let p1 := removeWhere (segmentAtEndpointKey startCell) (clonePaths paths0)
  match area startCell with
  | some a => p1.filterMap (removeAreaEntry dc a area)
  | none => p1

/-! ## Threaded commit sequences (claim C7) -/

/-- Thread repeated commits with one `idSeed`: each call receives the store
and counter returned by the previous call; for every call that changed the
counter, collect the id of the segment appended at the end of the session
color's list in that call's result. -/
def commitSeq (dot : Cell → Option String) (area : Cell → Option Int) (seed : Nat) :
    PathsByColor → Nat → List DragPreviewSession → PathsByColor × Nat × List String
  | paths, n, [] => (paths, n, [])
  | paths, n, s :: rest =>
    let r := commitDragWorklet paths s dot area seed n
    let newIds :=
      if r.nextSegmentId = n then []
      else ((getEntry r.paths s.color).getLast?.map fun sg => sg.id).toList
    let t := commitSeq dot area seed r.paths r.nextSegmentId rest
    (t.1, t.2.1, newIds ++ t.2.2)

/-- A 262-cell U-shaped session path: the bottom row left to right, one
step up, the top row right to left; its tip (0,1) is adjacent to its first
cell (0,0). -/
def bigPathTail : List Cell :=
  ((List.range 130).map fun i => Cell.mk (i + 1) 0) ++
    ((List.range 131).reverse.map fun i => Cell.mk i 1)

/-- The U-shaped path with its head cell made explicit. -/
def bigPath : List Cell := Cell.mk 0 0 :: bigPathTail

/-- The open set covering the U-shaped path's bounding box. -/
def openBig : Cell → Bool := fun c =>
  decide (0 ≤ c.x ∧ c.x ≤ 130 ∧ 0 ≤ c.y ∧ c.y ≤ 1)

/-! ## Theorems -/

theorem digitVal_digitChar : ∀ m, m < 10 → digitVal (Nat.digitChar m) = m := by decide

theorem toDigitsCore_append :
    ∀ (fuel n : Nat) (ds : List Char),
      Nat.toDigitsCore 10 fuel n ds = Nat.toDigitsCore 10 fuel n [] ++ ds := by
  intro fuel
  induction fuel with
  | zero => intro n ds; simp [Nat.toDigitsCore]
  | succ f ih =>
    intro n ds
    simp only [Nat.toDigitsCore]
    by_cases h : n / 10 = 0
    · simp [h]
    · simp only [h, if_false]
      rw [ih (n / 10) (Nat.digitChar (n % 10) :: ds), ih (n / 10) [Nat.digitChar (n % 10)]]
      simp

theorem ofDigitChars_append_one (l : List Char) (c : Char) :
    ofDigitChars (l ++ [c]) = ofDigitChars l * 10 + digitVal c := by
  unfold ofDigitChars
  rw [List.foldl_append]
  rfl

theorem ofDigitChars_toDigitsCore :
    ∀ (fuel n : Nat), n < fuel → ofDigitChars (Nat.toDigitsCore 10 fuel n []) = n := by
  intro fuel
  induction fuel with
  | zero => intro n h; omega
  | succ f ih =>
    intro n h
    simp only [Nat.toDigitsCore]
    by_cases h10 : n / 10 = 0
    · have hn : n < 10 := by omega
      simp only [h10, if_true]
      show ofDigitChars [Nat.digitChar (n % 10)] = n
      unfold ofDigitChars
      simp [List.foldl, digitVal_digitChar (n % 10) (by omega)]
      omega
    · simp only [h10, if_false]
      rw [toDigitsCore_append f (n / 10) [Nat.digitChar (n % 10)],
        ofDigitChars_append_one, ih (n / 10) (by omega),
        digitVal_digitChar (n % 10) (by omega)]
      omega

theorem ofDigitChars_toDigits (n : Nat) : ofDigitChars (Nat.toDigits 10 n) = n :=
  ofDigitChars_toDigitsCore (n + 1) n (Nat.lt_succ_self n)

theorem natRepr_injective : Function.Injective Nat.repr := by
  intro m n h
  have hdata : Nat.toDigits 10 m = Nat.toDigits 10 n := by
    have := congrArg String.data h
    simpa [Nat.repr, List.asString] using this
  have := congrArg ofDigitChars hdata
  rwa [ofDigitChars_toDigits, ofDigitChars_toDigits] at this

theorem string_data_append (a b : String) : (a ++ b).data = a.data ++ b.data := by
  cases a; cases b; rfl

theorem string_eq_of_data_eq {a b : String} (h : a.data = b.data) : a = b := by
  cases a; cases b; exact congrArg String.mk h

theorem mkSegmentId_inj (seed : Nat) {m n : Nat}
    (h : mkSegmentId seed m = mkSegmentId seed n) : m = n := by
  unfold mkSegmentId at h
  have hd := congrArg String.data h
  simp only [string_data_append] at hd
  have hrepr : (Nat.repr m).data = (Nat.repr n).data := List.append_cancel_left hd
  exact natRepr_injective (string_eq_of_data_eq hrepr)

/-! ## Basic facts about the Path Store operations -/

theorem map_mk_eta (l : List Cell) : (l.map fun c => Cell.mk c.x c.y) = l := by
  induction l with
  | nil => rfl
  | cons a t ih => simp [ih]

theorem removeEntry_eq_some {hit : Segment → Bool} {e₀ e : String × List Segment}
    (h : removeEntry hit e₀ = some e) :
    e.1 = e₀.1 ∧ e.2 = e₀.2.filter fun s => !hit s := by
  unfold removeEntry at h
  by_cases hc : ((e₀.2.filter fun s => !hit s).isEmpty && !e₀.2.isEmpty) = true
  · rw [if_pos hc] at h; cases h
  · rw [if_neg hc] at h
    obtain rfl := Option.some.inj h
    exact ⟨rfl, rfl⟩

theorem mem_removeWhere {hit : Segment → Bool} {src : PathsByColor}
    {e : String × List Segment} (he : e ∈ removeWhere hit src) :
    ∃ e₀ ∈ src, e.1 = e₀.1 ∧ e.2 = e₀.2.filter fun s => !hit s := by
  unfold removeWhere at he
  rw [List.mem_filterMap] at he
  obtain ⟨e₀, h₀, hf⟩ := he
  obtain ⟨h1, h2⟩ := removeEntry_eq_some hf
  exact ⟨e₀, h₀, h1, h2⟩

theorem filter_not_hit_eq {hit : Segment → Bool} {l : List Segment}
    (h : l.any hit = false) : (l.filter fun s => !hit s) = l := by
  apply List.filter_eq_self.mpr
  intro s hs
  cases hh : hit s
  · simp
  · exfalso
    have : l.any hit = true := List.any_eq_true.mpr ⟨s, hs, hh⟩
    rw [this] at h
    cases h

theorem removeEntry_eq_self {hit : Segment → Bool} {e : String × List Segment}
    (h : e.2.any hit = false) : removeEntry hit e = some e := by
  unfold removeEntry
  rw [filter_not_hit_eq h]
  have hcond : (e.2.isEmpty && !e.2.isEmpty) = false := by cases e.2.isEmpty <;> rfl
  rw [hcond]
  simp

theorem removeWhere_eq_self {hit : Segment → Bool} {src : PathsByColor}
    (h : removedAny hit src = false) : removeWhere hit src = src := by
  induction src with
  | nil => rfl
  | cons e t ih =>
    unfold removedAny at h
    simp only [List.any_cons, Bool.or_eq_false_iff] at h
    have ht : removeWhere hit t = t := ih h.2
    unfold removeWhere at ht ⊢
    rw [List.filterMap_cons, removeEntry_eq_self h.1, ht]

theorem mem_clonePaths {p : PathsByColor} {e : String × List Segment}
    (h : e ∈ clonePaths p) : e ∈ p :=
  (List.mem_filter.mp h).1

theorem removedAny_clonePaths (hit : Segment → Bool) (p : PathsByColor) :
    removedAny hit (clonePaths p) = removedAny hit p := by
  induction p with
  | nil => rfl
  | cons e t ih =>
    unfold clonePaths removedAny at ih ⊢
    rw [List.filter_cons]
    by_cases he : e.2.isEmpty
    · have : e.2 = [] := List.isEmpty_iff.mp he
      simp [he, ih, this]
    · simp [he, ih]

theorem getEntry_cases (p : PathsByColor) (k : String) :
    getEntry p k = [] ∨ (k, getEntry p k) ∈ p := by
  induction p with
  | nil => exact Or.inl rfl
  | cons e t ih =>
    unfold getEntry
    by_cases hk : e.1 = k
    · right
      rw [if_pos hk]
      have he : (k, e.2) = e := by rw [← hk]
      rw [he]
      exact List.mem_cons_self _ _
    · rw [if_neg hk]
      rcases ih with h | h
      · exact Or.inl h
      · exact Or.inr (List.mem_cons_of_mem _ h)

theorem mem_getEntry {p : PathsByColor} {k : String} {s : Segment}
    (h : s ∈ getEntry p k) : ∃ e ∈ p, e.1 = k ∧ s ∈ e.2 := by
  rcases getEntry_cases p k with hc | hc
  · rw [hc] at h; cases h
  · exact ⟨(k, getEntry p k), hc, rfl, h⟩

theorem mem_setEntry {p : PathsByColor} {k : String} {v : List Segment}
    {e : String × List Segment} (h : e ∈ setEntry p k v) : e = (k, v) ∨ e ∈ p := by
  induction p with
  | nil =>
    unfold setEntry at h
    simp only [List.mem_singleton] at h
    exact Or.inl h
  | cons e₀ t ih =>
    unfold setEntry at h
    by_cases hk : e₀.1 = k
    · simp only [hk, if_true, List.mem_cons] at h
      rcases h with h | h
      · exact Or.inl h
      · exact Or.inr (List.mem_cons_of_mem _ h)
    · simp only [hk, if_false, List.mem_cons] at h
      rcases h with h | h
      · exact Or.inr (h ▸ List.mem_cons_self _ _)
      · rcases ih h with h' | h'
        · exact Or.inl h'
        · exact Or.inr (List.mem_cons_of_mem _ h')

theorem getEntry_setEntry (p : PathsByColor) (k : String) (v : List Segment) :
    getEntry (setEntry p k v) k = v := by
  induction p with
  | nil => simp [setEntry, getEntry]
  | cons e t ih =>
    unfold setEntry
    by_cases hk : e.1 = k
    · simp [getEntry, hk]
    · simp [getEntry, hk, ih]

theorem noSelfOverlap_removeWhere {p : PathsByColor} (hit : Segment → Bool)
    (h : NoSelfOverlap p) : NoSelfOverlap (removeWhere hit p) := by
  intro e he
  obtain ⟨e₀, h₀, _, h2⟩ := mem_removeWhere he
  rw [h2]
  exact (h e₀ h₀).filter _

theorem mem_removeArea {color : String} {areaId : Int} {areaByKey : Cell → Option Int}
    {src : PathsByColor} {e : String × List Segment}
    (he : e ∈ src.filterMap (removeAreaEntry color areaId areaByKey)) :
    ∃ e₀ ∈ src, e.1 = e₀.1 ∧
      (e.2 = e₀.2 ∨
        e.2 = e₀.2.filter fun s => !segmentTerminatesInArea areaByKey areaId s) := by
  rw [List.mem_filterMap] at he
  obtain ⟨e₀, h₀, hf⟩ := he
  unfold removeAreaEntry at hf
  by_cases hc : e₀.1 = color
  · rw [if_pos hc] at hf
    obtain ⟨h1, h2⟩ := removeEntry_eq_some hf
    exact ⟨e₀, h₀, h1, Or.inr h2⟩
  · rw [if_neg hc] at hf
    obtain rfl := Option.some.inj hf
    exact ⟨e₀, h₀, rfl, Or.inl rfl⟩

theorem noSelfOverlap_removeArea {p : PathsByColor} (color : String) (areaId : Int)
    (areaByKey : Cell → Option Int) (h : NoSelfOverlap p) :
    NoSelfOverlap (p.filterMap (removeAreaEntry color areaId areaByKey)) := by
  intro e he
  obtain ⟨e₀, h₀, _, h2 | h2⟩ := mem_removeArea he
  · rw [h2]; exact h e₀ h₀
  · rw [h2]; exact (h e₀ h₀).filter _

theorem noSelfOverlap_clonePaths {p : PathsByColor} (h : NoSelfOverlap p) :
    NoSelfOverlap (clonePaths p) := fun e he => h e (mem_clonePaths he)

theorem pairwise_getEntry {p : PathsByColor} (h : NoSelfOverlap p) (k : String) :
    (getEntry p k).Pairwise cellsDisjoint := by
  rcases getEntry_cases p k with hc | hc
  · rw [hc]; exact List.Pairwise.nil
  · exact h _ hc

theorem noSelfOverlap_setEntry {p : PathsByColor} {k : String} {v : List Segment}
    (h : NoSelfOverlap p) (hv : v.Pairwise cellsDisjoint) :
    NoSelfOverlap (setEntry p k v) := by
  intro e he
  rcases mem_setEntry he with rfl | he'
  · exact hv
  · exact h e he'

theorem getEntry_removeWhere_not_hit {hit : Segment → Bool} {p : PathsByColor}
    {k : String} {s : Segment} (hs : s ∈ getEntry (removeWhere hit p) k) :
    hit s = false := by
  obtain ⟨e, he, _, hse⟩ := mem_getEntry hs
  obtain ⟨e₀, _, _, h2⟩ := mem_removeWhere he
  rw [h2] at hse
  have := (List.mem_filter.mp hse).2
  cases hh : hit s
  · rfl
  · rw [hh] at this; cases this

theorem segmentHitsCells_false_disjoint {keys : List Cell} {s : Segment}
    (h : segmentHitsCells keys s = false) : ∀ c ∈ s.cells, c ∉ keys := by
  intro c hc hmem
  have : s.cells.any (fun c => decide (c ∈ keys)) = true :=
    List.any_eq_true.mpr ⟨c, hc, by simpa using hmem⟩
  rw [segmentHitsCells] at h
  rw [this] at h
  cases h

/-! ## Shape of `commitDragWorklet` per branch -/

theorem commitDragWorklet_nil_eq (paths : PathsByColor) (color : String)
    (ax : Option Axis) (lk hm : Bool) (dot : Cell → Option String)
    (area : Cell → Option Int) (seed n : Nat) :
    commitDragWorklet paths ⟨color, [], ax, lk, hm⟩ dot area seed n =
      ⟨paths, false, n⟩ := rfl

theorem commitDragWorklet_tap_eq (paths : PathsByColor) (color : String)
    (ax : Option Axis) (lk : Bool) (c : Cell) (dot : Cell → Option String)
    (area : Cell → Option Int) (seed n : Nat) :
    commitDragWorklet paths ⟨color, [c], ax, lk, false⟩ dot area seed n =
      if optStrTruthy (dot c) then
        ⟨if removedAny (segmentAtEndpointKey c) (clonePaths paths) then
            removeWhere (segmentAtEndpointKey c) (clonePaths paths)
          else paths,
         removedAny (segmentAtEndpointKey c) (clonePaths paths), n⟩
      else ⟨paths, false, n⟩ := rfl

theorem commitDragWorklet_one_moved_eq (paths : PathsByColor) (color : String)
    (ax : Option Axis) (lk : Bool) (c : Cell) (dot : Cell → Option String)
    (area : Cell → Option Int) (seed n : Nat) :
    commitDragWorklet paths ⟨color, [c], ax, lk, true⟩ dot area seed n =
      ⟨paths, false, n⟩ := rfl

theorem commitRemovalChain_eq (paths : PathsByColor) (color : String)
    (path : List Cell) (start endCell : Cell) (dot : Cell → Option String)
    (area : Cell → Option Int) :
    commitRemovalChain paths color path start endCell dot area =
      removeWhere (segmentHitsCells path)
        (commitStep3
          (commitStep2 (commitStep1 (clonePaths paths) color start dot area)
            color start endCell dot area)
          start endCell dot) := rfl

theorem commitDragWorklet_path_eq (paths : PathsByColor) (color : String)
    (ax : Option Axis) (lk hm : Bool) (start : Cell) (rest : List Cell)
    (hrest : rest ≠ []) (dot : Cell → Option String) (area : Cell → Option Int)
    (seed n : Nat) :
    commitDragWorklet paths ⟨color, start :: rest, ax, lk, hm⟩ dot area seed n =
      ⟨setEntry
          (commitRemovalChain paths color (start :: rest) start
            ((start :: rest).getLast (List.cons_ne_nil _ _)) dot area)
          color
          (getEntry
              (commitRemovalChain paths color (start :: rest) start
                ((start :: rest).getLast (List.cons_ne_nil _ _)) dot area)
              color ++
            [⟨mkSegmentId seed n, start :: rest⟩]),
        true, n + 1⟩ := by
  have hlen : ((start :: rest).length == 1) = false := by
    rw [beq_eq_false_iff_ne]
    simp only [List.length_cons]
    have : rest.length ≠ 0 := fun h0 => hrest (List.length_eq_zero.mp h0)
    omega
  simp only [commitDragWorklet, commitRemovalChain, commitStep1, commitStep2,
    commitStep3, dotEndpointKeys, hlen, Bool.false_and, map_mk_eta]
  rfl

theorem removedAny_of_hit_false {hit : Segment → Bool} (p : PathsByColor)
    (h : ∀ s, hit s = false) : removedAny hit p = false := by
  unfold removedAny
  rw [List.any_eq_false]
  intro e _
  rw [Bool.not_eq_true, List.any_eq_false]
  intro s _
  rw [Bool.not_eq_true]
  exact h s

theorem segmentEndpointInKeys_nil (s : Segment) :
    segmentEndpointInKeys [] s = false := by
  unfold segmentEndpointInKeys
  cases s.cells.head? <;> cases s.cells.getLast? <;> simp

theorem commitStep3_eq_removeWhere (p : PathsByColor) (start endCell : Cell)
    (dot : Cell → Option String) :
    commitStep3 p start endCell dot =
      removeWhere (segmentEndpointInKeys (dotEndpointKeys start endCell dot)) p := by
  unfold commitStep3
  by_cases hek : (dotEndpointKeys start endCell dot).isEmpty = true
  · rw [hek]
    have hnil : dotEndpointKeys start endCell dot = [] := List.isEmpty_iff.mp hek
    rw [hnil]
    have : removedAny (segmentEndpointInKeys ([] : List Cell)) p = false :=
      removedAny_of_hit_false p segmentEndpointInKeys_nil
    rw [removeWhere_eq_self this]
    rfl
  · rw [Bool.not_eq_true] at hek
    rw [hek]
    rfl

theorem noSelfOverlap_commitStep1 {p : PathsByColor} (color : String) (start : Cell)
    (dot : Cell → Option String) (area : Cell → Option Int) (h : NoSelfOverlap p) :
    NoSelfOverlap (commitStep1 p color start dot area) := by
  unfold commitStep1
  cases (if dot start = some color then area start else none) with
  | none => exact h
  | some a => exact noSelfOverlap_removeArea color a area h

theorem noSelfOverlap_commitStep2 {p : PathsByColor} (color : String)
    (start endCell : Cell) (dot : Cell → Option String) (area : Cell → Option Int)
    (h : NoSelfOverlap p) :
    NoSelfOverlap (commitStep2 p color start endCell dot area) := by
  unfold commitStep2
  cases (if dot endCell = some color then area endCell else none) with
  | none => exact h
  | some a =>
    show NoSelfOverlap
      (if (if dot start = some color then area start else none) ≠ some a then
        (removeSegmentsWithColorInArea p color a area).1
      else p)
    by_cases hne : (if dot start = some color then area start else none) ≠ some a
    · rw [if_pos hne]
      exact noSelfOverlap_removeArea color a area h
    · rw [if_neg hne]
      exact h

theorem noSelfOverlap_commitStep3 {p : PathsByColor} (start endCell : Cell)
    (dot : Cell → Option String) (h : NoSelfOverlap p) :
    NoSelfOverlap (commitStep3 p start endCell dot) := by
  rw [commitStep3_eq_removeWhere]
  exact noSelfOverlap_removeWhere _ h

theorem noSelfOverlap_commitRemovalChain (paths : PathsByColor) (color : String)
    (path : List Cell) (start endCell : Cell) (dot : Cell → Option String)
    (area : Cell → Option Int) (h : NoSelfOverlap paths) :
    NoSelfOverlap (commitRemovalChain paths color path start endCell dot area) := by
  rw [commitRemovalChain_eq]
  exact noSelfOverlap_removeWhere _
    (noSelfOverlap_commitStep3 _ _ _
      (noSelfOverlap_commitStep2 _ _ _ _ _
        (noSelfOverlap_commitStep1 _ _ _ _ (noSelfOverlap_clonePaths h))))

/-! ## Claim theorems -/

/-- C1: for every drag session whose path has length at least two, the
commit applies its removals to a clone of the Path Store in the fixed order
(1) start-dot same-color area eviction, (2) end-dot same-color area
eviction when the end's area differs from the start's, (3) any-color
removal of segments whose first or last cell coincides with a dot endpoint
of the path, (4) any-color removal of segments containing any cell of the
path, and then appends a new segment whose cells equal the full ordered
session path, with identity formed from `idSeed` and the running counter,
which is incremented and returned. -/
theorem C1_commit_path_matches_spec (paths : PathsByColor) (color : String)
    (ax : Option Axis) (lk hm : Bool) (start : Cell) (rest : List Cell)
    (hrest : rest ≠ []) (dot : Cell → Option String) (area : Cell → Option Int)
    (seed n : Nat) :
    commitDragWorklet paths ⟨color, start :: rest, ax, lk, hm⟩ dot area seed n =
      commitPathSpec paths color (start :: rest) start
        ((start :: rest).getLast (List.cons_ne_nil _ _)) dot area seed n := by
  rw [commitDragWorklet_path_eq _ _ _ _ _ _ _ hrest, commitRemovalChain_eq,
    commitStep3_eq_removeWhere]
  unfold commitPathSpec commitStep1 commitStep2
  rfl

/-- C1 witness: the pipeline equality evaluated at a concrete two-cell drag
over a one-segment store. -/
theorem C1_witness :
    commitDragWorklet [("red", [⟨"old", [⟨0, 1⟩, ⟨1, 1⟩]⟩])]
        ⟨"red", [⟨0, 0⟩, ⟨0, 1⟩], none, false, true⟩
        (fun c => if c = (⟨0, 0⟩ : Cell) then some "red" else none)
        (fun _ => none) 5 7 =
      commitPathSpec [("red", [⟨"old", [⟨0, 1⟩, ⟨1, 1⟩]⟩])] "red"
        [⟨0, 0⟩, ⟨0, 1⟩] ⟨0, 0⟩ ⟨0, 1⟩
        (fun c => if c = (⟨0, 0⟩ : Cell) then some "red" else none)
        (fun _ => none) 5 7 :=
  C1_commit_path_matches_spec [("red", [⟨"old", [⟨0, 1⟩, ⟨1, 1⟩]⟩])] "red"
    none false true ⟨0, 0⟩ [⟨0, 1⟩] (by decide)
    (fun c => if c = (⟨0, 0⟩ : Cell) then some "red" else none) (fun _ => none) 5 7

/-- C2: a Path Store in which, for each color, no cell appears in two
segments of that color keeps that property through any commit. -/
theorem C2_commit_preserves_no_self_overlap (paths : PathsByColor)
    (session : DragPreviewSession) (dot : Cell → Option String)
    (area : Cell → Option Int) (seed n : Nat) (h : NoSelfOverlap paths) :
    NoSelfOverlap (commitDragWorklet paths session dot area seed n).paths := by
  obtain ⟨color, path, ax, lk, hm⟩ := session
  cases path with
  | nil => exact h
  | cons start rest =>
    cases rest with
    | nil =>
      cases hm with
      | false =>
        rw [commitDragWorklet_tap_eq]
        by_cases hd : optStrTruthy (dot start) = true
        · rw [if_pos hd]
          show NoSelfOverlap
            (if removedAny (segmentAtEndpointKey start) (clonePaths paths) then
              removeWhere (segmentAtEndpointKey start) (clonePaths paths)
            else paths)
          by_cases hr : removedAny (segmentAtEndpointKey start) (clonePaths paths) = true
          · rw [if_pos hr]
            exact noSelfOverlap_removeWhere _ (noSelfOverlap_clonePaths h)
          · rw [if_neg hr]
            exact h
        · rw [if_neg hd]
          exact h
      | true => exact h
    | cons c2 rest2 =>
      rw [commitDragWorklet_path_eq _ _ _ _ _ _ _ (List.cons_ne_nil _ _)]
      apply noSelfOverlap_setEntry
      · exact noSelfOverlap_commitRemovalChain _ _ _ _ _ _ _ h
      · rw [List.pairwise_append]
        refine ⟨pairwise_getEntry (noSelfOverlap_commitRemovalChain _ _ _ _ _ _ _ h) _,
          by simp, ?_⟩
        intro s hs t ht
        rw [List.mem_singleton] at ht
        subst ht
        intro c hc
        rw [commitRemovalChain_eq] at hs
        exact segmentHitsCells_false_disjoint (getEntry_removeWhere_not_hit hs) c hc

/-- C2 witness: the invariant-preservation theorem applied to a concrete
overlap-free store and a concrete redrawing session. -/
theorem C2_witness :
    NoSelfOverlap
      (commitDragWorklet [("red", [⟨"r1", [⟨0, 0⟩, ⟨0, 1⟩]⟩, ⟨"r2", [⟨3, 0⟩, ⟨3, 1⟩]⟩])]
          ⟨"red", [⟨0, 1⟩, ⟨1, 1⟩], none, false, true⟩ (fun _ => none) (fun _ => none)
          3 0).paths :=
  C2_commit_preserves_no_self_overlap
    [("red", [⟨"r1", [⟨0, 0⟩, ⟨0, 1⟩]⟩, ⟨"r2", [⟨3, 0⟩, ⟨3, 1⟩]⟩])]
    ⟨"red", [⟨0, 1⟩, ⟨1, 1⟩], none, false, true⟩ (fun _ => none) (fun _ => none)
    3 0 (by decide)

/-- C3 counterexample: on the claim's own input — segment cells
(0,0),(0,1),(0,2),(0,3), where (0,0) is a red dot and (0,3) is not a dot,
pickup at index 1 — `buildPickupPath` does not return the claimed initial
path (0,1),(0,0). -/
theorem C3_counterexample :
    buildPickupPath ⟨"seg-a", [⟨0, 0⟩, ⟨0, 1⟩, ⟨0, 2⟩, ⟨0, 3⟩]⟩ 1 "red"
        (fun c => if c = (⟨0, 0⟩ : Cell) then some "red" else none) ≠
      [⟨0, 1⟩, ⟨0, 0⟩] := by decide

/-- C3 amended: the pickup keeps the dot side even though it is shorter
than the three-cell other side, but oriented with the dot end first and the
picked-up cell last (the growable tip), so the initial path is
(0,0),(0,1). -/
theorem C3_pickup_keeps_dot_side :
    buildPickupPath ⟨"seg-a", [⟨0, 0⟩, ⟨0, 1⟩, ⟨0, 2⟩, ⟨0, 3⟩]⟩ 1 "red"
        (fun c => if c = (⟨0, 0⟩ : Cell) then some "red" else none) =
      [⟨0, 0⟩, ⟨0, 1⟩] := by decide

/-- C5: a single-cell commit with `hasMoved = false` (a tap) on a dot
removes every segment, of any color, whose first or last cell is that cell,
reporting a change exactly when something was removed; a tap on a non-dot
cell and a single-cell drag with `hasMoved = true` are no-ops. -/
theorem C5_commit_single_cell (paths : PathsByColor) (color : String)
    (ax : Option Axis) (lk : Bool) (c : Cell) (dot : Cell → Option String)
    (area : Cell → Option Int) (seed n : Nat) :
    (optStrTruthy (dot c) = true →
      (commitDragWorklet paths ⟨color, [c], ax, lk, false⟩ dot area seed n).didChange =
          removedAny (segmentAtEndpointKey c) paths ∧
        (removedAny (segmentAtEndpointKey c) paths = true →
          (commitDragWorklet paths ⟨color, [c], ax, lk, false⟩ dot area seed n).paths =
            removeWhere (segmentAtEndpointKey c) (clonePaths paths)) ∧
        (removedAny (segmentAtEndpointKey c) paths = false →
          (commitDragWorklet paths ⟨color, [c], ax, lk, false⟩ dot area seed n).paths =
            paths)) ∧
    (optStrTruthy (dot c) = false →
      commitDragWorklet paths ⟨color, [c], ax, lk, false⟩ dot area seed n =
        ⟨paths, false, n⟩) ∧
    commitDragWorklet paths ⟨color, [c], ax, lk, true⟩ dot area seed n =
      ⟨paths, false, n⟩ ∧
    (commitDragWorklet paths ⟨color, [c], ax, lk, false⟩ dot area seed n).nextSegmentId =
      n := by
  refine ⟨?_, ?_, commitDragWorklet_one_moved_eq _ _ _ _ _ _ _ _ _, ?_⟩
  · intro hd
    rw [commitDragWorklet_tap_eq, if_pos hd]
    refine ⟨removedAny_clonePaths _ _, ?_, ?_⟩
    · intro hr
      have hr' : removedAny (segmentAtEndpointKey c) (clonePaths paths) = true := by
        rw [removedAny_clonePaths]; exact hr
      show (if removedAny (segmentAtEndpointKey c) (clonePaths paths) then
          removeWhere (segmentAtEndpointKey c) (clonePaths paths) else paths) =
        removeWhere (segmentAtEndpointKey c) (clonePaths paths)
      rw [if_pos hr']
    · intro hr
      have hr' : removedAny (segmentAtEndpointKey c) (clonePaths paths) = false := by
        rw [removedAny_clonePaths]; exact hr
      show (if removedAny (segmentAtEndpointKey c) (clonePaths paths) then
          removeWhere (segmentAtEndpointKey c) (clonePaths paths) else paths) = paths
      rw [hr']
      rfl
  · intro hd
    rw [commitDragWorklet_tap_eq, if_neg (by simp [hd])]
  · rw [commitDragWorklet_tap_eq]
    by_cases hd : optStrTruthy (dot c) = true
    · rw [if_pos hd]
    · rw [if_neg hd]

/-- C5 witness: tap deletion on a concrete store — tapping the dot endpoint
of a red segment reports a change and removes it. -/
theorem C5_witness :
    (commitDragWorklet [("red", [⟨"r1", [⟨0, 0⟩, ⟨0, 1⟩]⟩])]
          ⟨"red", [⟨0, 0⟩], none, false, false⟩
          (fun c => if c = (⟨0, 0⟩ : Cell) then some "red" else none)
          (fun _ => none) 1 4).didChange =
      removedAny (segmentAtEndpointKey ⟨0, 0⟩) [("red", [⟨"r1", [⟨0, 0⟩, ⟨0, 1⟩]⟩])] :=
  ((C5_commit_single_cell [("red", [⟨"r1", [⟨0, 0⟩, ⟨0, 1⟩]⟩])] "red" none false
      ⟨0, 0⟩ (fun c => if c = (⟨0, 0⟩ : Cell) then some "red" else none)
      (fun _ => none) 1 4).1 (by decide)).1

/-- C6: commit never changes the input store value; whenever `didChange` is
false the returned `paths` is the original input itself. -/
theorem C6_commit_no_change_returns_input (paths : PathsByColor)
    (session : DragPreviewSession) (dot : Cell → Option String)
    (area : Cell → Option Int) (seed n : Nat)
    (h : (commitDragWorklet paths session dot area seed n).didChange = false) :
    (commitDragWorklet paths session dot area seed n).paths = paths := by
  obtain ⟨color, path, ax, lk, hm⟩ := session
  cases path with
  | nil => rfl
  | cons start rest =>
    cases rest with
    | nil =>
      cases hm with
      | false =>
        rw [commitDragWorklet_tap_eq] at h ⊢
        by_cases hd : optStrTruthy (dot start) = true
        · rw [if_pos hd] at h ⊢
          have hr : removedAny (segmentAtEndpointKey start) (clonePaths paths) = false := h
          show (if removedAny (segmentAtEndpointKey start) (clonePaths paths) then
              removeWhere (segmentAtEndpointKey start) (clonePaths paths) else paths) = paths
          rw [hr]
          rfl
        · rw [if_neg hd]
      | true => rfl
    | cons c2 rest2 =>
      rw [commitDragWorklet_path_eq _ _ _ _ _ _ _ (List.cons_ne_nil _ _)] at h
      cases h

/-- C6 witness: the no-change equality applied to an empty-path session. -/
theorem C6_witness :
    (commitDragWorklet [("red", [⟨"r1", [⟨0, 0⟩, ⟨0, 1⟩]⟩])]
          ⟨"red", [], none, false, false⟩ (fun _ => none) (fun _ => none) 1 4).paths =
      [("red", [⟨"r1", [⟨0, 0⟩, ⟨0, 1⟩]⟩])] :=
  C6_commit_no_change_returns_input [("red", [⟨"r1", [⟨0, 0⟩, ⟨0, 1⟩]⟩])]
    ⟨"red", [], none, false, false⟩ (fun _ => none) (fun _ => none) 1 4 (by decide)

/-- C10: a commit of a path of length at least two always reports
`didChange = true` and increments the counter; the color's list in the
result ends with the freshly minted segment carrying the full path, and
every segment before it is disjoint from the new path — so redrawing an
identical path removes the old copy and appends a fresh one. -/
theorem C10_commit_path_always_changes (paths : PathsByColor) (color : String)
    (ax : Option Axis) (lk hm : Bool) (start : Cell) (rest : List Cell)
    (hrest : rest ≠ []) (dot : Cell → Option String) (area : Cell → Option Int)
    (seed n : Nat) :
    (commitDragWorklet paths ⟨color, start :: rest, ax, lk, hm⟩ dot area seed n).didChange =
        true ∧
      (commitDragWorklet paths ⟨color, start :: rest, ax, lk, hm⟩ dot area
            seed n).nextSegmentId = n + 1 ∧
      ∃ prior : List Segment,
        getEntry
            (commitDragWorklet paths ⟨color, start :: rest, ax, lk, hm⟩ dot area
              seed n).paths color =
          prior ++ [⟨mkSegmentId seed n, start :: rest⟩] ∧
        ∀ s ∈ prior, ∀ c ∈ s.cells, c ∉ start :: rest := by
  rw [commitDragWorklet_path_eq _ _ _ _ _ _ _ hrest]
  refine ⟨rfl, rfl,
    getEntry (commitRemovalChain paths color (start :: rest) start
      ((start :: rest).getLast (List.cons_ne_nil _ _)) dot area) color, ?_, ?_⟩
  · exact getEntry_setEntry _ _ _
  · intro s hs c hc
    rw [commitRemovalChain_eq] at hs
    exact segmentHitsCells_false_disjoint (getEntry_removeWhere_not_hit hs) c hc

/-- C10 witness: redrawing exactly the cells of an existing red segment
still reports a change, replacing the old segment by a fresh one. -/
theorem C10_witness :
    (commitDragWorklet [("red", [⟨"old", [⟨0, 0⟩, ⟨0, 1⟩]⟩])]
          ⟨"red", [⟨0, 0⟩, ⟨0, 1⟩], none, false, true⟩ (fun _ => none)
          (fun _ => none) 5 7).didChange = true ∧
      (commitDragWorklet [("red", [⟨"old", [⟨0, 0⟩, ⟨0, 1⟩]⟩])]
            ⟨"red", [⟨0, 0⟩, ⟨0, 1⟩], none, false, true⟩ (fun _ => none)
            (fun _ => none) 5 7).nextSegmentId = 7 + 1 ∧
      ∃ prior : List Segment,
        getEntry
            (commitDragWorklet [("red", [⟨"old", [⟨0, 0⟩, ⟨0, 1⟩]⟩])]
              ⟨"red", [⟨0, 0⟩, ⟨0, 1⟩], none, false, true⟩ (fun _ => none)
              (fun _ => none) 5 7).paths "red" =
          prior ++ [⟨mkSegmentId 5 7, [⟨0, 0⟩, ⟨0, 1⟩]⟩] ∧
        ∀ s ∈ prior, ∀ c ∈ s.cells, c ∉ [(⟨0, 0⟩ : Cell), ⟨0, 1⟩] :=
  C10_commit_path_always_changes [("red", [⟨"old", [⟨0, 0⟩, ⟨0, 1⟩]⟩])] "red"
    none false true ⟨0, 0⟩ [⟨0, 1⟩] (by decide) (fun _ => none) (fun _ => none) 5 7

/-! ## Start-of-drag eviction (claim C4) -/

theorem removeArea_eq_self {c : String} {a : Int} {ab : Cell → Option Int}
    {src : PathsByColor}
    (h : (src.any fun e => e.1 = c && e.2.any (segmentTerminatesInArea ab a)) = false) :
    src.filterMap (removeAreaEntry c a ab) = src := by
  induction src with
  | nil => rfl
  | cons e t ih =>
    simp only [List.any_cons, Bool.or_eq_false_iff] at h
    rw [List.filterMap_cons]
    have hh : removeAreaEntry c a ab e = some e := by
      unfold removeAreaEntry
      by_cases hc : e.1 = c
      · rw [if_pos hc]
        apply removeEntry_eq_self
        have h1 := h.1
        rw [hc] at h1
        simpa using h1
      · rw [if_neg hc]
    rw [hh, ih h.2]

theorem startEvict_eq (paths0 : PathsByColor) (startCell : Cell) (dc : String)
    (area : Cell → Option Int) :
    (startEvict paths0 startCell dc area).1 =
      if (startEvict paths0 startCell dc area).2 = true then
        startEvictSpec paths0 startCell dc area
      else paths0 := by
  by_cases hr1 : removedAny (segmentAtEndpointKey startCell) (clonePaths paths0) = true
  · cases harea : area startCell with
    | none =>
      simp [startEvict, startEvictSpec, removeSegmentsWithEndpoint,
        removeSegmentsWithColorInAreaClone, hr1, harea]
    | some a =>
      by_cases har2 :
          ((removeWhere (segmentAtEndpointKey startCell) (clonePaths paths0)).any
            fun e => e.1 = dc && e.2.any (segmentTerminatesInArea area a)) = true
      · simp [startEvict, startEvictSpec, removeSegmentsWithEndpoint,
          removeSegmentsWithColorInAreaClone, hr1, harea, har2]
      · rw [Bool.not_eq_true] at har2
        simp [startEvict, startEvictSpec, removeSegmentsWithEndpoint,
          removeSegmentsWithColorInAreaClone, hr1, harea, har2,
          removeArea_eq_self har2]
  · rw [Bool.not_eq_true] at hr1
    cases harea : area startCell with
    | none =>
      simp [startEvict, startEvictSpec, removeSegmentsWithEndpoint,
        removeSegmentsWithColorInAreaClone, hr1, harea]
    | some a =>
      by_cases har2 :
          ((clonePaths paths0).any
            fun e => e.1 = dc && e.2.any (segmentTerminatesInArea area a)) = true
      · simp [startEvict, startEvictSpec, removeSegmentsWithEndpoint,
          removeSegmentsWithColorInAreaClone, hr1, harea, har2,
          removeWhere_eq_self hr1]
      · rw [Bool.not_eq_true] at har2
        simp [startEvict, startEvictSpec, removeSegmentsWithEndpoint,
          removeSegmentsWithColorInAreaClone, hr1, harea, har2]

theorem startDragSession_store (startCell : Cell) (openSet : Cell → Bool)
    (dots : Cell → Option String) (area : Cell → Option Int) (paths0 : PathsByColor)
    (hopen : openSet startCell = true) (htr : optStrTruthy (dots startCell) = true) :
    (startDragSession startCell openSet dots area paths0).paths =
      (startEvict paths0 startCell ((dots startCell).getD "") area).1 ∧
    (startDragSession startCell openSet dots area paths0).mutated =
      (startEvict paths0 startCell ((dots startCell).getD "") area).2 := by
  unfold startDragSession
  rw [hopen]
  simp only [Bool.not_true, Bool.false_eq_true, if_false, htr, if_true]
  constructor <;> (repeat' split) <;> rfl

/-- C4 counterexample: starting a drag on the open cell (0,0), which is a
red dot, with the store holding a single blue segment whose first cell is
(0,0): the blue segment — a segment of another color — is removed by the
start-time eviction, and the store is reported mutated. -/
theorem C4_counterexample :
    (startDragSession ⟨0, 0⟩ (fun _ => true)
          (fun c => if c = (⟨0, 0⟩ : Cell) then some "red" else none) (fun _ => none)
          [("blue", [⟨"b1", [⟨0, 0⟩, ⟨1, 0⟩]⟩])]).paths = [] ∧
      (startDragSession ⟨0, 0⟩ (fun _ => true)
          (fun c => if c = (⟨0, 0⟩ : Cell) then some "red" else none) (fun _ => none)
          [("blue", [⟨"b1", [⟨0, 0⟩, ⟨1, 0⟩]⟩])]).mutated = true := by decide

/-- C4 amended: when a drag starts on an open dot cell, the shared Path
Store afterwards equals the eviction pipeline — every segment of any color
whose first or last cell is the start cell is removed, and, when the start
cell has an area id, every segment of the dot's color terminating in that
area is removed — whenever anything was removed, and is the untouched
original otherwise. -/
theorem C4_start_dot_eviction (paths0 : PathsByColor) (startCell : Cell)
    (openSet : Cell → Bool) (dots : Cell → Option String) (area : Cell → Option Int)
    (hopen : openSet startCell = true) (htr : optStrTruthy (dots startCell) = true) :
    (startDragSession startCell openSet dots area paths0).paths =
      if (startDragSession startCell openSet dots area paths0).mutated = true then
        startEvictSpec paths0 startCell ((dots startCell).getD "") area
      else paths0 := by
  obtain ⟨h1, h2⟩ := startDragSession_store startCell openSet dots area paths0 hopen htr
  rw [h1, h2, startEvict_eq]

/-- C4 witness: the eviction equality evaluated at the counterexample's
input, where the blue segment ends at the red dot. -/
theorem C4_witness :
    (startDragSession ⟨0, 0⟩ (fun _ => true)
          (fun c => if c = (⟨0, 0⟩ : Cell) then some "red" else none) (fun _ => none)
          [("blue", [⟨"b1", [⟨0, 0⟩, ⟨1, 0⟩]⟩])]).paths =
      if (startDragSession ⟨0, 0⟩ (fun _ => true)
              (fun c => if c = (⟨0, 0⟩ : Cell) then some "red" else none) (fun _ => none)
              [("blue", [⟨"b1", [⟨0, 0⟩, ⟨1, 0⟩]⟩])]).mutated = true then
        startEvictSpec [("blue", [⟨"b1", [⟨0, 0⟩, ⟨1, 0⟩]⟩])] ⟨0, 0⟩ "red" (fun _ => none)
      else [("blue", [⟨"b1", [⟨0, 0⟩, ⟨1, 0⟩]⟩])] :=
  C4_start_dot_eviction [("blue", [⟨"b1", [⟨0, 0⟩, ⟨1, 0⟩]⟩])] ⟨0, 0⟩ (fun _ => true)
    (fun c => if c = (⟨0, 0⟩ : Cell) then some "red" else none) (fun _ => none)
    (by decide) (by decide)

theorem commitSeq_cons (dot : Cell → Option String) (area : Cell → Option Int)
    (seed : Nat) (paths : PathsByColor) (n : Nat) (s : DragPreviewSession)
    (rest : List DragPreviewSession) :
    commitSeq dot area seed paths n (s :: rest) =
      ((commitSeq dot area seed (commitDragWorklet paths s dot area seed n).paths
          (commitDragWorklet paths s dot area seed n).nextSegmentId rest).1,
       (commitSeq dot area seed (commitDragWorklet paths s dot area seed n).paths
          (commitDragWorklet paths s dot area seed n).nextSegmentId rest).2.1,
       (if (commitDragWorklet paths s dot area seed n).nextSegmentId = n then []
        else
          ((getEntry (commitDragWorklet paths s dot area seed n).paths s.color).getLast?.map
            fun sg => sg.id).toList) ++
         (commitSeq dot area seed (commitDragWorklet paths s dot area seed n).paths
            (commitDragWorklet paths s dot area seed n).nextSegmentId rest).2.2) := rfl

/-- Per-call counter behavior: either the counter is returned unchanged, or
it is incremented and the session color's list in the result ends with the
segment minted from the pre-call counter. -/
theorem commit_counter (paths : PathsByColor) (s : DragPreviewSession)
    (dot : Cell → Option String) (area : Cell → Option Int) (seed n : Nat) :
    (commitDragWorklet paths s dot area seed n).nextSegmentId = n ∨
      ((commitDragWorklet paths s dot area seed n).nextSegmentId = n + 1 ∧
        (getEntry (commitDragWorklet paths s dot area seed n).paths s.color).getLast? =
          some ⟨mkSegmentId seed n, s.path⟩) := by
  obtain ⟨color, path, ax, lk, hm⟩ := s
  cases path with
  | nil => exact Or.inl rfl
  | cons start rest =>
    cases rest with
    | nil =>
      cases hm with
      | false =>
        left
        rw [commitDragWorklet_tap_eq]
        by_cases hd : optStrTruthy (dot start) = true
        · rw [if_pos hd]
        · rw [if_neg hd]
      | true => exact Or.inl rfl
    | cons c2 rest2 =>
      right
      rw [commitDragWorklet_path_eq _ _ _ _ _ _ _ (List.cons_ne_nil _ _)]
      refine ⟨rfl, ?_⟩
      dsimp only
      rw [getEntry_setEntry]
      exact List.getLast?_concat _

theorem commitSeq_spec (dot : Cell → Option String) (area : Cell → Option Int)
    (seed : Nat) :
    ∀ (sessions : List DragPreviewSession) (paths : PathsByColor) (n : Nat),
      n ≤ (commitSeq dot area seed paths n sessions).2.1 ∧
      (∀ id ∈ (commitSeq dot area seed paths n sessions).2.2,
        ∃ k, n ≤ k ∧ k < (commitSeq dot area seed paths n sessions).2.1 ∧
          id = mkSegmentId seed k) ∧
      (commitSeq dot area seed paths n sessions).2.2.Nodup := by
  intro sessions
  induction sessions with
  | nil =>
    intro paths n
    refine ⟨Nat.le_refl n, ?_, by simp [commitSeq]⟩
    intro id h
    simp [commitSeq] at h
  | cons s rest ih =>
    intro paths n
    rw [commitSeq_cons]
    rcases commit_counter paths s dot area seed n with hc | ⟨hc, hlast⟩
    · rw [hc]
      rw [if_pos rfl]
      obtain ⟨ih1, ih2, ih3⟩ := ih (commitDragWorklet paths s dot area seed n).paths n
      simp only [List.nil_append]
      exact ⟨ih1, ih2, ih3⟩
    · rw [hc, hlast]
      have hne : ¬(n + 1 = n) := by omega
      rw [if_neg hne]
      obtain ⟨ih1, ih2, ih3⟩ :=
        ih (commitDragWorklet paths s dot area seed n).paths (n + 1)
      simp only [Option.map_some', Option.toList_some, List.singleton_append]
      refine ⟨Nat.le_trans (Nat.le_succ n) ih1, ?_, ?_⟩
      · intro id hid
        rcases List.mem_cons.mp hid with rfl | hid'
        · exact ⟨n, Nat.le_refl n, Nat.lt_of_lt_of_le (Nat.lt_succ_self n) ih1, rfl⟩
        · obtain ⟨k, hk1, hk2, hk3⟩ := ih2 id hid'
          exact ⟨k, Nat.le_trans (Nat.le_succ n) hk1, hk2, hk3⟩
      · rw [List.nodup_cons]
        refine ⟨?_, ih3⟩
        intro hmem
        obtain ⟨k, hk1, _, hk3⟩ := ih2 _ hmem
        have : n = k := mkSegmentId_inj seed hk3
        omega

/-- C7 counterexample: two threaded tap commits return the counter
unchanged, so the returned `nextSegmentId` does not strictly increase from
call to call. -/
theorem C7_counterexample :
    (commitDragWorklet [] ⟨"red", [⟨0, 0⟩], none, false, false⟩ (fun _ => none)
          (fun _ => none) 9 5).nextSegmentId = 5 ∧
      (commitDragWorklet
            (commitDragWorklet [] ⟨"red", [⟨0, 0⟩], none, false, false⟩ (fun _ => none)
              (fun _ => none) 9 5).paths
            ⟨"red", [⟨0, 0⟩], none, false, false⟩ (fun _ => none) (fun _ => none) 9
            (commitDragWorklet [] ⟨"red", [⟨0, 0⟩], none, false, false⟩ (fun _ => none)
              (fun _ => none) 9 5).nextSegmentId).nextSegmentId = 5 := by decide

/-- C7 amended: across every threaded sequence of commits with one
`idSeed`, the returned counter never decreases and is incremented exactly
by the commits whose path has length at least two; the ids of all segments
created by the sequence are pairwise distinct. -/
theorem C7_commit_counter_and_ids (dot : Cell → Option String)
    (area : Cell → Option Int) (seed : Nat) (paths : PathsByColor) (n : Nat)
    (sessions : List DragPreviewSession) :
    n ≤ (commitSeq dot area seed paths n sessions).2.1 ∧
    (commitSeq dot area seed paths n sessions).2.2.Nodup ∧
    (∀ (p : PathsByColor) (s : DragPreviewSession) (m : Nat),
      2 ≤ s.path.length →
      (commitDragWorklet p s dot area seed m).nextSegmentId = m + 1) ∧
    (∀ (p : PathsByColor) (s : DragPreviewSession) (m : Nat),
      s.path.length ≤ 1 →
      (commitDragWorklet p s dot area seed m).nextSegmentId = m) := by
  obtain ⟨h1, _, h3⟩ := commitSeq_spec dot area seed sessions paths n
  refine ⟨h1, h3, ?_, ?_⟩
  · intro p s m hlen
    obtain ⟨color, path, ax, lk, hm⟩ := s
    cases path with
    | nil => simp at hlen
    | cons start rest =>
      cases rest with
      | nil => simp at hlen
      | cons c2 rest2 =>
        rw [commitDragWorklet_path_eq _ _ _ _ _ _ _ (List.cons_ne_nil _ _)]
  · intro p s m hlen
    obtain ⟨color, path, ax, lk, hm⟩ := s
    cases path with
    | nil => rfl
    | cons start rest =>
      cases rest with
      | nil =>
        cases hm with
        | false =>
          rw [commitDragWorklet_tap_eq]
          by_cases hd : optStrTruthy (dot start) = true
          · rw [if_pos hd]
          · rw [if_neg hd]
        | true => rfl
      | cons c2 rest2 =>
        simp only [List.length_cons] at hlen
        omega

/-- C7 witness: a two-cell commit increments the counter from 5 to 6. -/
theorem C7_witness :
    (commitDragWorklet [] ⟨"red", [⟨0, 0⟩, ⟨0, 1⟩], none, false, true⟩ (fun _ => none)
        (fun _ => none) 9 5).nextSegmentId = 5 + 1 :=
  (C7_commit_counter_and_ids (fun _ => none) (fun _ => none) 9 [] 5 []).2.2.1
    [] ⟨"red", [⟨0, 0⟩, ⟨0, 1⟩], none, false, true⟩ 5 (by decide)

/-! ## Stepping loop (claims C8 and C9) -/

/-- C8: during the incremental stepping of a drag-session update, whenever
the candidate next cell equals the second-to-last cell of the path, the
loop pops the last cell instead of appending, clears the lock, and
continues stepping with the remaining iteration budget. -/
theorem C8_step_backtrack (a : Axis) (target : Int) (color : String)
    (openSet : Cell → Bool) (dots : Cell → Option String) (fuel : Nat)
    (st : StepState) (current prev : Cell)
    (hcur : st.path.getLast? = some current)
    (hlen : 2 ≤ st.path.length)
    (hprev : st.path.get? (st.path.length - 2) = some prev)
    (hne : axisCoord a current ≠ target)
    (hback : stepCell a (if target - axisCoord a current > 0 then 1 else -1) current = prev) :
    stepLoop a target color openSet dots (fuel + 1) st =
      stepLoop a target color openSet dots fuel ⟨st.path.dropLast, false, st.hasMoved, true⟩ := by
  rw [stepLoop]
  simp only [hcur]
  have hdiff : ¬(target - axisCoord a current = 0) := fun h0 => hne (by omega)
  rw [if_neg hdiff, if_pos hlen, hprev, hback]
  simp

/-- C8 witness: one backtrack step on the concrete path (0,0),(0,1) with a
locked session: the tip is popped, the lock cleared, and stepping
continues. -/
theorem C8_witness :
    stepLoop .y 0 "red" (fun _ => true) (fun _ => none) 4
        ⟨[⟨0, 0⟩, ⟨0, 1⟩], true, false, false⟩ =
      stepLoop .y 0 "red" (fun _ => true) (fun _ => none) 3
        ⟨[⟨0, 0⟩], false, false, true⟩ :=
  C8_step_backtrack .y 0 "red" (fun _ => true) (fun _ => none) 3
    ⟨[⟨0, 0⟩, ⟨0, 1⟩], true, false, false⟩ ⟨0, 1⟩ ⟨0, 0⟩ (by decide) (by decide)
    (by decide) (by decide) (by decide)

theorem stepLoop_length_le (a : Axis) (target : Int) (color : String)
    (openSet : Cell → Bool) (dots : Cell → Option String) :
    ∀ (fuel : Nat) (st : StepState),
      (stepLoop a target color openSet dots fuel st).path.length ≤ st.path.length + fuel := by
  intro fuel
  induction fuel with
  | zero => intro st; simp [stepLoop]
  | succ f ih =>
    intro st
    rw [stepLoop]
    cases hlast : st.path.getLast? with
    | none => dsimp only; omega
    | some current =>
      dsimp only
      by_cases hdiff : target - axisCoord a current = 0
      · rw [if_pos hdiff]; omega
      · rw [if_neg hdiff]
        repeat' split
        all_goals try dsimp only
        all_goals
          first
          | omega
          | (refine Nat.le_trans (ih _) ?_
             dsimp only
             simp only [List.length_dropLast, List.length_append, List.length_singleton]
             omega)
          | (simp only [List.length_take, List.length_append, List.length_singleton]
             omega)

set_option maxRecDepth 40000 in
/-- C9 counterexample: on a 262-cell U-shaped path whose tip is adjacent to
its first cell, a single update truncates the path at the self-intersection
down to one cell — a length change of 261, more than 256. -/
theorem C9_counterexample :
    (updateDragSession ⟨"red", bigPath, some .y, false, true⟩ 0 0 1
          ⟨0, 0, 130, 1⟩ openBig (fun _ => none)).session.path.length + 256 <
      (⟨"red", bigPath, some .y, false, true⟩ : DragPreviewSession).path.length := by
  have hst : (stepLoop .y 0 "red" openBig (fun _ => none) 256
      ⟨Cell.mk 0 0 :: bigPathTail, false, true, false⟩).path.length = 1 := by decide
  have hgl : (Cell.mk 0 0 :: bigPathTail).getLast (List.cons_ne_nil _ _) = ⟨0, 1⟩ := by
    have h1 : (Cell.mk 0 0 :: bigPathTail).getLast? = some ⟨0, 1⟩ := by decide
    rw [List.getLast?_eq_getLast _ (List.cons_ne_nil _ _)] at h1
    exact Option.some.inj h1
  have hlen : (Cell.mk 0 0 :: bigPathTail).length = 262 := by decide
  norm_num [updateDragSession, bigPath, clampQ, clampI, resolveAxis, axisCoord, openBig,
    hgl, hst, hlen, min_def, max_def, ite_self, Int.floor_zero, div_one]

/-- C9 amended: the drag-session update is a total function whose stepping
loop runs at most 256 iterations (the explicit fuel), and a single update
grows the path by at most 256 cells; the path may shrink by more than 256
cells in one update when it truncates at an earlier self-intersection. -/
theorem C9_update_growth_bound (session : DragPreviewSession) (localX localY : ℚ)
    (fitCellSize : ℚ) (openBounds : OpenBounds) (openSet : Cell → Bool)
    (dots : Cell → Option String) :
    (updateDragSession session localX localY fitCellSize openBounds openSet
        dots).session.path.length ≤ session.path.length + 256 := by
  obtain ⟨color, path, ax, lk, hm⟩ := session
  cases path with
  | nil => simp [updateDragSession]
  | cons first rest =>
    simp only [updateDragSession]
    split
    · exact stepLoop_length_le _ _ _ _ _ 256 _
    · dsimp only; omega

end FlowState
